import Mathlib

/-!  Shallow embedding of the day05 Intcode interpreter from
     `src/src/bin/day05/intcode.rs`.

     Cells are `Int` (Rust `i32`), the cell array is a `List Int` (Rust
     `Vec<i32>`), the program counter is a `Nat` (Rust `usize`).  Host I/O
     is modelled by an explicit list of pending inputs and a list of
     collected outputs.  Rust's `&mut self` methods become functions that
     return the (possibly updated) machine next to the `Result`; an early
     `return Err(..)` carries the machine exactly as it was at that point,
     mirroring the fact that the Rust code has performed no mutation yet on
     any of its error paths. -/

deriving instance DecidableEq for Except

namespace Day05

/-- Rust `v as usize` on an `i32`: sign-extend to 64 bits and reinterpret
    as unsigned. -/
def usizeOfI32 (v : Int) : Nat := (v % (2 : Int) ^ 64).toNat

/-- `CPUExceptionKind` from intcode.rs.  The accompanying message string of
    `CPUException` is dropped: all observable behaviour in the claims is in
    terms of the kind. -/
inductive CPUExceptionKind where
  | InvalidOpcode
  | InvalidOperand
  | InvalidInput
  | OutOfBounds
  deriving DecidableEq, Repr

/-- `CPUState` from intcode.rs. -/
inductive CPUState where
  | Running
  | Halted
  deriving DecidableEq, Repr

/-- `Operand` from intcode.rs. -/
inductive Operand where
  | Position : Nat → Operand
  | Immediate : Int → Operand
  deriving DecidableEq, Repr

/-- `Operand::new`: mode digit 0 is position (`value as usize`), 1 is
    immediate, anything else faults `InvalidOperand`. -/
def Operand.new (mode : Nat) (value : Int) : Except CPUExceptionKind Operand :=
  if mode = 0 then .ok (.Position (usizeOfI32 value))
  else if mode = 1 then .ok (.Immediate value)
  else .error .InvalidOperand

/-- `CPUOp` from intcode.rs. -/
inductive CPUOp where
  | Add : Operand → Operand → Nat → CPUOp
  | Mul : Operand → Operand → Nat → CPUOp
  | Halt : CPUOp
  | Input : Nat → CPUOp
  | Output : Operand → CPUOp
  | JumpZero : Operand → Operand → CPUOp
  | JumpNonZero : Operand → Operand → CPUOp
  | CompareLess : Operand → Operand → Nat → CPUOp
  | CompareEqual : Operand → Operand → Nat → CPUOp
  | Undefined : Int → CPUOp
  deriving DecidableEq, Repr

/-- `CPUOp::next_pc_offset`. -/
def CPUOp.next_pc_offset : CPUOp → Nat
  | .Add _ _ _ | .Mul _ _ _ | .CompareEqual _ _ _ | .CompareLess _ _ _ => 4
  | .JumpZero _ _ | .JumpNonZero _ _ => 3
  | .Input _ | .Output _ => 2
  | .Halt | .Undefined _ => 0

/-- `IntcodeCPU` from intcode.rs. -/
structure Machine where
  program : List Int
  state : CPUState
  pc : Nat
  deriving DecidableEq, Repr

/-- `IntcodeCPU::new`. -/
def Machine.new (program : List Int) : Machine := ⟨program, .Running, 0⟩

/-- `self.program.get(idx).ok_or_else(out_of_bounds)`: a bounds-checked
    cell read. -/
def readCell (program : List Int) (idx : Nat) : Except CPUExceptionKind Int :=
  match program.get? idx with
  | some v => .ok v
  | none => .error .OutOfBounds

/-- `self.program.get_mut(idx).ok_or_else(out_of_bounds)` followed by a
    store: a bounds-checked cell write. -/
def writeCell (program : List Int) (idx : Nat) (v : Int) :
    Except CPUExceptionKind (List Int) :=
  if idx < program.length then .ok (program.set idx v)
  else .error .OutOfBounds

/-- `IntcodeCPU::get_operand_value`. -/
def getOperandValue (program : List Int) : Operand → Except CPUExceptionKind Int
  | .Position idx => readCell program idx
  | .Immediate v => .ok v

/-- Decimal digits of `n`, most significant first, no leading zeros
    (`0` yields `[0]`).  Structural fuel: 40 levels cover every `Nat`
    below `10 ^ 40`, far beyond the `i32` cell range of the source. -/
def toDigitsAux : Nat → Nat → List Nat
  | 0, _ => []
  | fuel + 1, n => if n < 10 then [n] else toDigitsAux fuel (n / 10) ++ [n % 10]

/-- Rust `format` of `n` with width 5 and zero fill, as a digit list:
    the decimal digits, left-padded with zeros to length at least 5. -/
def fmt5 (n : Nat) : List Nat :=
  let d := toDigitsAux 40 n
  List.replicate (5 - d.length) 0 ++ d

/-- `i32::from_str` applied to a digit string (most significant first). -/
def natOfDigits (ds : List Nat) : Nat := ds.foldl (fun a d => a * 10 + d) 0

/-- The shared decode body of the `"01"`, `"02"`, `"07"` and `"08"` arms of
    `fetch_op`: read the two source cells and the destination cell at
    `pc+1 .. pc+3`, decode the two source operands with the given mode
    digits, and keep the raw destination as an index (`dst as usize`). -/
def fetchBinOp (mk : Operand → Operand → Nat → CPUOp) (program : List Int)
    (pc m0 m1 : Nat) : Except CPUExceptionKind CPUOp :=
  match readCell program (pc + 1) with
  | .error e => .error e
  | .ok src1 =>
    match readCell program (pc + 2) with
    | .error e => .error e
    | .ok src2 =>
      match readCell program (pc + 3) with
      | .error e => .error e
      | .ok dst =>
        match Operand.new m0 src1 with
        | .error e => .error e
        | .ok o1 =>
          match Operand.new m1 src2 with
          | .error e => .error e
          | .ok o2 => .ok (mk o1 o2 (usizeOfI32 dst))

/-- The `"03"` arm of `fetch_op`.  NOTE: the source reads the destination
    from cell `pc + 3` (even though its error message names `pc + 1` and
    the spec says PC+1); no mode digit is consulted. -/
def fetchInput (program : List Int) (pc : Nat) : Except CPUExceptionKind CPUOp :=
  match readCell program (pc + 3) with
  | .error e => .error e
  | .ok dst => .ok (.Input (usizeOfI32 dst))

/-- The `"04"` arm of `fetch_op`. -/
def fetchOutput (program : List Int) (pc m0 : Nat) :
    Except CPUExceptionKind CPUOp :=
  match readCell program (pc + 1) with
  | .error e => .error e
  | .ok src =>
    match Operand.new m0 src with
    | .error e => .error e
    | .ok o => .ok (.Output o)

/-- The shared decode body of the `"05"` and `"06"` arms of `fetch_op`. -/
def fetchJump (mk : Operand → Operand → CPUOp) (program : List Int)
    (pc m0 m1 : Nat) : Except CPUExceptionKind CPUOp :=
  match readCell program (pc + 1) with
  | .error e => .error e
  | .ok cmp =>
    match readCell program (pc + 2) with
    | .error e => .error e
    | .ok tgt =>
      match Operand.new m0 cmp with
      | .error e => .error e
      | .ok o1 =>
        match Operand.new m1 tgt with
        | .error e => .error e
        | .ok o2 => .ok (mk o1 o2)

/-- The body of `fetch_op` once the cell at PC has been read: fault
    `InvalidOpcode` on a negative value, otherwise format the value as a
    width-5 zero-padded decimal digit string, split it after the first
    three characters (`split_at(3)`) into mode characters and opcode
    string, and dispatch on the opcode string.  The mode characters are
    reversed before indexing, so `operand_modes[0] = c2` and
    `operand_modes[1] = c1` below (index 2, i.e. `c0`, is never read by
    any arm).  `fmt5` always yields at least five digits, so the final
    under-length match arm is unreachable. -/
def decodeWith (program : List Int) (pc : Nat) (opcode : Int) :
    Except CPUExceptionKind CPUOp :=
  if opcode < 0 then .error .InvalidOpcode
  else
    match fmt5 opcode.toNat with
    | _c0 :: c1 :: c2 :: opd =>
      if opd = [0, 1] then fetchBinOp .Add program pc c2 c1
      else if opd = [0, 2] then fetchBinOp .Mul program pc c2 c1
      else if opd = [0, 3] then fetchInput program pc
      else if opd = [0, 4] then fetchOutput program pc c2
      else if opd = [0, 5] then fetchJump .JumpNonZero program pc c2 c1
      else if opd = [0, 6] then fetchJump .JumpZero program pc c2 c1
      else if opd = [0, 7] then fetchBinOp .CompareLess program pc c2 c1
      else if opd = [0, 8] then fetchBinOp .CompareEqual program pc c2 c1
      else if opd = [9, 9] then .ok .Halt
      else .ok (.Undefined (Int.ofNat (natOfDigits opd)))
    | _ => .error .InvalidOpcode

/-- `IntcodeCPU::fetch_op`. -/
def fetchOp (m : Machine) : Except CPUExceptionKind CPUOp :=
  match readCell m.program m.pc with
  | .error e => .error e
  | .ok opcode => decodeWith m.program m.pc opcode

/-- `IntcodeCPU::execute_op`.  Returns the Rust `CPUResult<()>` next to the
    machine as left behind by the call, the remaining host inputs, and the
    outputs emitted during the call.  On every `Err` path the Rust code has
    not yet mutated `self`, so the machine is returned unchanged there.
    `INPUT` pops the next pending host input after the bounds check on the
    destination; an exhausted input list stands for the host failing to
    provide a parseable integer (`InvalidInput`). -/
def execute_op (m : Machine) (op : CPUOp) (ins : List Int) :
    Except CPUExceptionKind Unit × Machine × List Int × List Int :=
  let offset := op.next_pc_offset
  match op with
  | .Add src1 src2 dst =>
    match getOperandValue m.program src1 with
    | .error e => (.error e, m, ins, [])
    | .ok v1 =>
      match getOperandValue m.program src2 with
      | .error e => (.error e, m, ins, [])
      | .ok v2 =>
        match writeCell m.program dst (v1 + v2) with
        | .error e => (.error e, m, ins, [])
        | .ok p => (.ok (), ⟨p, m.state, m.pc + offset⟩, ins, [])
  | .Mul src1 src2 dst =>
    match getOperandValue m.program src1 with
    | .error e => (.error e, m, ins, [])
    | .ok v1 =>
      match getOperandValue m.program src2 with
      | .error e => (.error e, m, ins, [])
      | .ok v2 =>
        match writeCell m.program dst (v1 * v2) with
        | .error e => (.error e, m, ins, [])
        | .ok p => (.ok (), ⟨p, m.state, m.pc + offset⟩, ins, [])
  | .Halt => (.ok (), ⟨m.program, .Halted, m.pc + offset⟩, ins, [])
  | .Input dst =>
    if dst < m.program.length then
      match ins with
      | [] => (.error .InvalidInput, m, ins, [])
      | i :: rest => (.ok (), ⟨m.program.set dst i, m.state, m.pc + offset⟩, rest, [])
    else (.error .OutOfBounds, m, ins, [])
  | .Output src =>
    match getOperandValue m.program src with
    | .error e => (.error e, m, ins, [])
    | .ok v => (.ok (), ⟨m.program, m.state, m.pc + offset⟩, ins, [v])
  | .JumpZero cmp tgt =>
    match getOperandValue m.program cmp with
    | .error e => (.error e, m, ins, [])
    | .ok c =>
      match getOperandValue m.program tgt with
      | .error e => (.error e, m, ins, [])
      | .ok t =>
        if c = 0 then (.ok (), ⟨m.program, m.state, usizeOfI32 t⟩, ins, [])
        else (.ok (), ⟨m.program, m.state, m.pc + offset⟩, ins, [])
  | .JumpNonZero cmp tgt =>
    match getOperandValue m.program cmp with
    | .error e => (.error e, m, ins, [])
    | .ok c =>
      match getOperandValue m.program tgt with
      | .error e => (.error e, m, ins, [])
      | .ok t =>
        if c ≠ 0 then (.ok (), ⟨m.program, m.state, usizeOfI32 t⟩, ins, [])
        else (.ok (), ⟨m.program, m.state, m.pc + offset⟩, ins, [])
  | .CompareEqual cmp1 cmp2 dst =>
    match getOperandValue m.program cmp1 with
    | .error e => (.error e, m, ins, [])
    | .ok v1 =>
      match getOperandValue m.program cmp2 with
      | .error e => (.error e, m, ins, [])
      | .ok v2 =>
        match writeCell m.program dst (if v1 = v2 then 1 else 0) with
        | .error e => (.error e, m, ins, [])
        | .ok p => (.ok (), ⟨p, m.state, m.pc + offset⟩, ins, [])
  | .CompareLess cmp1 cmp2 dst =>
    match getOperandValue m.program cmp1 with
    | .error e => (.error e, m, ins, [])
    | .ok v1 =>
      match getOperandValue m.program cmp2 with
      | .error e => (.error e, m, ins, [])
      | .ok v2 =>
        match writeCell m.program dst (if v1 < v2 then 1 else 0) with
        | .error e => (.error e, m, ins, [])
        | .ok p => (.ok (), ⟨p, m.state, m.pc + offset⟩, ins, [])
  | .Undefined _ => (.error .InvalidOpcode, m, ins, [])

/-- `IntcodeCPU::step`: one fetch / execute cycle; on success the Rust
    code returns `Ok(self.state)`. -/
def step (m : Machine) (ins : List Int) :
    Except CPUExceptionKind CPUState × Machine × List Int × List Int :=
  match fetchOp m with
  | .error e => (.error e, m, ins, [])
  | .ok op =>
    match execute_op m op ins with
    | (.error e, m', ins', outs) => (.error e, m', ins', outs)
    | (.ok _, m', ins', outs) => (.ok m'.state, m', ins', outs)

/-- `IntcodeCPU::run`, made total with an explicit fuel: keep stepping
    until the state observed after a step is `Halted` (`Ok`) or a step
    faults (`Err`); `none` when the fuel runs out first. -/
def runFuel : Nat → Machine → List Int →
    Option (Except CPUExceptionKind Unit × Machine × List Int × List Int)
  | 0, _, _ => none
  | fuel + 1, m, ins =>
    match step m ins with
    | (.error e, m', ins', outs) => some (.error e, m', ins', outs)
    | (.ok .Halted, m', ins', outs) => some (.ok (), m', ins', outs)
    | (.ok .Running, m', ins', outs) =>
      match runFuel fuel m' ins' with
      | none => none
      | some (r, mf, insf, outsf) => some (r, mf, insf, outs ++ outsf)

/-- Machine states reachable from a freshly constructed machine through
    successful `step` calls (with arbitrary host inputs). -/
inductive Reachable : Machine → Prop where
  | init (program : List Int) : Reachable (Machine.new program)
  | next (m : Machine) (ins : List Int) (s : CPUState) (m' : Machine)
      (ins' outs : List Int) : Reachable m →
      step m ins = (.ok s, m', ins', outs) → Reachable m'

theorem readCell_ok_iff {program : List Int} {i : Nat} {v : Int} :
    readCell program i = .ok v ↔ program.get? i = some v := by
  unfold readCell
  cases h : program.get? i <;> simp

theorem readCell_oob {program : List Int} {i : Nat}
    (h : program.length ≤ i) : readCell program i = .error .OutOfBounds := by
  unfold readCell
  rw [List.get?_eq_none.mpr h]

theorem readCell_error_eq {program : List Int} {i : Nat} {e : CPUExceptionKind}
    (h : readCell program i = .error e) :
    e = .OutOfBounds ∧ program.length ≤ i := by
  unfold readCell at h
  cases hg : program.get? i with
  | none => rw [hg] at h; exact ⟨(Except.error.injEq _ _).mp h.symm, List.get?_eq_none.mp hg⟩
  | some v => rw [hg] at h; exact absurd h (by simp)

theorem writeCell_ok_length {program : List Int} {i : Nat} {v : Int}
    {program' : List Int} (h : writeCell program i v = .ok program') :
    program'.length = program.length := by
  unfold writeCell at h
  split at h
  · cases h; exact List.length_set program i v
  · exact absurd h (by simp)

theorem writeCell_error_iff {program : List Int} {i : Nat} {v : Int}
    {e : CPUExceptionKind} :
    writeCell program i v = .error e ↔ e = .OutOfBounds ∧ program.length ≤ i := by
  unfold writeCell
  split <;> rename_i hlt
  · simp; omega
  · simp [eq_comm]; omega

/-- One unfolding step of `toDigitsAux`, stated so that it can be used
    with explicit numeral fuels. -/
theorem toDigitsAux_succ (fuel n : Nat) :
    toDigitsAux (fuel + 1) n =
      if n < 10 then [n] else toDigitsAux fuel (n / 10) ++ [n % 10] := rfl

/-- Below `100000`, the width-5 formatted digit string is exactly the five
    decimal digits of `n`, most significant first. -/
theorem fmt5_lt {n : Nat} (h : n < 100000) :
    fmt5 n = [n / 10000 % 10, n / 1000 % 10, n / 100 % 10, n / 10 % 10, n % 10] := by
  show List.replicate (5 - (toDigitsAux 40 n).length) 0 ++ toDigitsAux 40 n = _
  by_cases h1 : n < 10
  · have ed : toDigitsAux 40 n = [n] := by
      rw [show (40 : Nat) = 39 + 1 from rfl, toDigitsAux_succ, if_pos h1]
    rw [ed]
    show [0, 0, 0, 0] ++ [n] = _
    simp only [List.cons_append, List.nil_append, List.cons.injEq, and_true]
    omega
  · by_cases h2 : n < 100
    · have ed : toDigitsAux 40 n = [n / 10, n % 10] := by
        rw [show (40 : Nat) = 39 + 1 from rfl, toDigitsAux_succ, if_neg h1,
          show (39 : Nat) = 38 + 1 from rfl, toDigitsAux_succ,
          if_pos (by omega : n / 10 < 10)]
        simp
      rw [ed]
      show [0, 0, 0] ++ [n / 10, n % 10] = _
      simp only [List.cons_append, List.nil_append, List.cons.injEq, and_true]
      omega
    · by_cases h3 : n < 1000
      · have ed : toDigitsAux 40 n = [n / 100, n / 10 % 10, n % 10] := by
          rw [show (40 : Nat) = 39 + 1 from rfl, toDigitsAux_succ, if_neg h1,
            show (39 : Nat) = 38 + 1 from rfl, toDigitsAux_succ,
            if_neg (by omega : ¬n / 10 < 10),
            show n / 10 / 10 = n / 100 from by omega,
            show n / 10 % 10 = n / 10 % 10 from rfl,
            show (38 : Nat) = 37 + 1 from rfl, toDigitsAux_succ,
            if_pos (by omega : n / 100 < 10)]
          simp
        rw [ed]
        show [0, 0] ++ [n / 100, n / 10 % 10, n % 10] = _
        simp only [List.cons_append, List.nil_append, List.cons.injEq, and_true]
        omega
      · by_cases h4 : n < 10000
        · have ed : toDigitsAux 40 n = [n / 1000, n / 100 % 10, n / 10 % 10, n % 10] := by
            rw [show (40 : Nat) = 39 + 1 from rfl, toDigitsAux_succ, if_neg h1,
              show (39 : Nat) = 38 + 1 from rfl, toDigitsAux_succ,
              if_neg (by omega : ¬n / 10 < 10),
              show n / 10 / 10 = n / 100 from by omega,
              show (38 : Nat) = 37 + 1 from rfl, toDigitsAux_succ,
              if_neg (by omega : ¬n / 100 < 10),
              show n / 100 / 10 = n / 1000 from by omega,
              show (37 : Nat) = 36 + 1 from rfl, toDigitsAux_succ,
              if_pos (by omega : n / 1000 < 10)]
            simp
          rw [ed]
          show [0] ++ [n / 1000, n / 100 % 10, n / 10 % 10, n % 10] = _
          simp only [List.cons_append, List.nil_append, List.cons.injEq, and_true]
          omega
        · have ed : toDigitsAux 40 n =
              [n / 10000, n / 1000 % 10, n / 100 % 10, n / 10 % 10, n % 10] := by
            rw [show (40 : Nat) = 39 + 1 from rfl, toDigitsAux_succ, if_neg h1,
              show (39 : Nat) = 38 + 1 from rfl, toDigitsAux_succ,
              if_neg (by omega : ¬n / 10 < 10),
              show n / 10 / 10 = n / 100 from by omega,
              show (38 : Nat) = 37 + 1 from rfl, toDigitsAux_succ,
              if_neg (by omega : ¬n / 100 < 10),
              show n / 100 / 10 = n / 1000 from by omega,
              show (37 : Nat) = 36 + 1 from rfl, toDigitsAux_succ,
              if_neg (by omega : ¬n / 1000 < 10),
              show n / 1000 / 10 = n / 10000 from by omega,
              show (36 : Nat) = 35 + 1 from rfl, toDigitsAux_succ,
              if_pos (by omega : n / 10000 < 10)]
            simp
          rw [ed]
          show [] ++ [n / 10000, n / 1000 % 10, n / 100 % 10, n / 10 % 10, n % 10] = _
          simp only [List.nil_append, List.cons.injEq, and_true]
          omega

/-- `decodeWith` on a non-negative value below `100000`, with the digit
    string replaced by explicit division/remainder digits. -/
theorem decodeWith_lt (program : List Int) (pc : Nat) {n : Nat} (h : n < 100000) :
    decodeWith program pc (Int.ofNat n) =
      (if [n / 10 % 10, n % 10] = [0, 1] then
        fetchBinOp .Add program pc (n / 100 % 10) (n / 1000 % 10)
      else if [n / 10 % 10, n % 10] = [0, 2] then
        fetchBinOp .Mul program pc (n / 100 % 10) (n / 1000 % 10)
      else if [n / 10 % 10, n % 10] = [0, 3] then fetchInput program pc
      else if [n / 10 % 10, n % 10] = [0, 4] then
        fetchOutput program pc (n / 100 % 10)
      else if [n / 10 % 10, n % 10] = [0, 5] then
        fetchJump .JumpNonZero program pc (n / 100 % 10) (n / 1000 % 10)
      else if [n / 10 % 10, n % 10] = [0, 6] then
        fetchJump .JumpZero program pc (n / 100 % 10) (n / 1000 % 10)
      else if [n / 10 % 10, n % 10] = [0, 7] then
        fetchBinOp .CompareLess program pc (n / 100 % 10) (n / 1000 % 10)
      else if [n / 10 % 10, n % 10] = [0, 8] then
        fetchBinOp .CompareEqual program pc (n / 100 % 10) (n / 1000 % 10)
      else if [n / 10 % 10, n % 10] = [9, 9] then .ok .Halt
      else .ok (.Undefined (Int.ofNat (natOfDigits [n / 10 % 10, n % 10])))) := by
  unfold decodeWith
  have hneg : ¬(Int.ofNat n < 0) := Int.not_lt.mpr (Int.ofNat_nonneg n)
  rw [if_neg hneg, show (Int.ofNat n).toNat = n from rfl, fmt5_lt h]

/-- The instruction-decode rule exactly as the specification words it
    (claim C2): the instruction is chosen by `v mod 100`, and the
    parameter modes of operands 1 and 2 are the hundreds and thousands
    decimal digits of `v` (the ten-thousands digit, operand 3's mode, is
    read by no instruction; unknown opcodes decode to `Undefined`). -/
def specDecode (program : List Int) (pc : Nat) (v : Nat) :
    Except CPUExceptionKind CPUOp :=
  if v % 100 = 1 then fetchBinOp .Add program pc (v / 100 % 10) (v / 1000 % 10)
  else if v % 100 = 2 then fetchBinOp .Mul program pc (v / 100 % 10) (v / 1000 % 10)
  else if v % 100 = 3 then fetchInput program pc
  else if v % 100 = 4 then fetchOutput program pc (v / 100 % 10)
  else if v % 100 = 5 then fetchJump .JumpNonZero program pc (v / 100 % 10) (v / 1000 % 10)
  else if v % 100 = 6 then fetchJump .JumpZero program pc (v / 100 % 10) (v / 1000 % 10)
  else if v % 100 = 7 then fetchBinOp .CompareLess program pc (v / 100 % 10) (v / 1000 % 10)
  else if v % 100 = 8 then fetchBinOp .CompareEqual program pc (v / 100 % 10) (v / 1000 % 10)
  else if v % 100 = 99 then .ok .Halt
  else .ok (.Undefined (Int.ofNat (v % 100)))

/-- Below `100000` the source's string-splitting decode agrees with the
    specification's `v mod 100` / decimal-digit-modes description. -/
theorem decodeWith_eq_specDecode (program : List Int) (pc : Nat) {n : Nat}
    (h : n < 100000) :
    decodeWith program pc (Int.ofNat n) = specDecode program pc n := by
  rw [decodeWith_lt program pc h]
  unfold specDecode
  by_cases h1 : n % 100 = 1
  · simp [h1, (by omega : n / 10 % 10 = 0), (by omega : n % 10 = 1)]
  by_cases h2 : n % 100 = 2
  · simp [h1, h2, (by omega : n / 10 % 10 = 0), (by omega : n % 10 = 2)]
  by_cases h3 : n % 100 = 3
  · simp [h1, h2, h3, (by omega : n / 10 % 10 = 0), (by omega : n % 10 = 3)]
  by_cases h4 : n % 100 = 4
  · simp [h1, h2, h3, h4, (by omega : n / 10 % 10 = 0), (by omega : n % 10 = 4)]
  by_cases h5 : n % 100 = 5
  · simp [h1, h2, h3, h4, h5, (by omega : n / 10 % 10 = 0), (by omega : n % 10 = 5)]
  by_cases h6 : n % 100 = 6
  · simp [h1, h2, h3, h4, h5, h6,
      (by omega : n / 10 % 10 = 0), (by omega : n % 10 = 6)]
  by_cases h7 : n % 100 = 7
  · simp [h1, h2, h3, h4, h5, h6, h7,
      (by omega : n / 10 % 10 = 0), (by omega : n % 10 = 7)]
  by_cases h8 : n % 100 = 8
  · simp [h1, h2, h3, h4, h5, h6, h7, h8,
      (by omega : n / 10 % 10 = 0), (by omega : n % 10 = 8)]
  by_cases h99 : n % 100 = 99
  · simp [h1, h2, h3, h4, h5, h6, h7, h8, h99,
      (by omega : n / 10 % 10 = 9), (by omega : n % 10 = 9)]
  · rw [if_neg (by simp only [List.cons.injEq]; omega),
      if_neg (by simp only [List.cons.injEq]; omega),
      if_neg (by simp only [List.cons.injEq]; omega),
      if_neg (by simp only [List.cons.injEq]; omega),
      if_neg (by simp only [List.cons.injEq]; omega),
      if_neg (by simp only [List.cons.injEq]; omega),
      if_neg (by simp only [List.cons.injEq]; omega),
      if_neg (by simp only [List.cons.injEq]; omega),
      if_neg (by simp only [List.cons.injEq]; omega),
      if_neg h1, if_neg h2, if_neg h3, if_neg h4, if_neg h5, if_neg h6,
      if_neg h7, if_neg h8, if_neg h99]
    have hval : natOfDigits [n / 10 % 10, n % 10] = n % 100 := by
      simp only [natOfDigits, List.foldl]
      omega
    rw [hval]

/-- On every faulting path `execute_op` leaves the machine, the pending
    inputs and the emitted outputs untouched, mirroring that every `Err`
    return in the source happens before any mutation of `self`. -/
theorem execute_op_error_frozen {m : Machine} {op : CPUOp} {ins : List Int}
    {e : CPUExceptionKind} {m' : Machine} {ins' outs : List Int}
    (h : execute_op m op ins = (.error e, m', ins', outs)) :
    m' = m ∧ ins' = ins ∧ outs = [] := by
  cases op <;> simp only [execute_op] at h <;> (repeat' split at h) <;> simp_all

/-- `execute_op` never changes the length of the cell array: every write
    goes through `List.set`. -/
theorem execute_op_program_length {m : Machine} {op : CPUOp} {ins : List Int}
    {r : Except CPUExceptionKind Unit} {m' : Machine} {ins' outs : List Int}
    (h : execute_op m op ins = (r, m', ins', outs)) :
    m'.program.length = m.program.length := by
  cases op <;> simp only [execute_op] at h <;> (repeat' split at h) <;>
    simp only [Prod.mk.injEq] at h <;> obtain ⟨-, hm2, -, -⟩ := h <;> subst hm2 <;>
    first
      | (rename_i hw; exact writeCell_ok_length hw)
      | simp [List.length_set]

/-- On a successful `execute_op` the resulting state is `Halted` exactly
    when the executed instruction was `Halt` or the machine was already
    `Halted` (no instruction ever resets the state to `Running`). -/
theorem execute_op_ok_state {m : Machine} {op : CPUOp} {ins : List Int}
    {u : Unit} {m' : Machine} {ins' outs : List Int}
    (h : execute_op m op ins = (.ok u, m', ins', outs)) :
    (m'.state = .Halted ↔ op = .Halt ∨ m.state = .Halted) := by
  cases op <;> simp only [execute_op] at h <;> (repeat' split at h) <;>
    simp only [Prod.mk.injEq, reduceCtorEq, false_and] at h <;>
    obtain ⟨-, hm2, -, -⟩ := h <;> subst hm2 <;> simp

/-- `Halted` is sticky across `execute_op`, faulting or not. -/
theorem execute_op_halted_sticky {m : Machine} {op : CPUOp} {ins : List Int}
    {r : Except CPUExceptionKind Unit} {m' : Machine} {ins' outs : List Int}
    (h : execute_op m op ins = (r, m', ins', outs)) (hs : m.state = .Halted) :
    m'.state = .Halted := by
  cases op <;> simp only [execute_op] at h <;> (repeat' split at h) <;>
    simp only [Prod.mk.injEq] at h <;> obtain ⟨-, hm2, -, -⟩ := h <;>
    subst hm2 <;> simp [hs]

/-- Executing `Halt`: set the state, advance the PC by the zero offset. -/
theorem execute_op_halt (m : Machine) (ins : List Int) :
    execute_op m .Halt ins = (.ok (), ⟨m.program, .Halted, m.pc⟩, ins, []) := by
  simp [execute_op, CPUOp.next_pc_offset]

/-- The residual computation of `step` once the fetched instruction is
    known. -/
theorem step_of_fetch {m : Machine} {op : CPUOp} (ins : List Int)
    (hf : fetchOp m = .ok op) :
    step m ins =
      (match execute_op m op ins with
        | (.error e, m', ins', outs) => (.error e, m', ins', outs)
        | (.ok _, m', ins', outs) => (.ok m'.state, m', ins', outs)) := by
  unfold step
  rw [hf]

/-- Inversion for a successful `step`: a fetch produced an instruction and
    executing it succeeded, and the reported state is the new machine's. -/
theorem step_ok_inv {m : Machine} {ins : List Int} {s : CPUState}
    {m' : Machine} {ins' outs : List Int}
    (h : step m ins = (.ok s, m', ins', outs)) :
    ∃ op, fetchOp m = .ok op ∧
      execute_op m op ins = (.ok (), m', ins', outs) ∧ s = m'.state := by
  cases hf : fetchOp m with
  | error e =>
    unfold step at h
    rw [hf] at h
    simp at h
  | ok op =>
    have h2 := (step_of_fetch ins hf).symm.trans h
    rcases hex : execute_op m op ins with ⟨r, m2, ins2, outs2⟩
    rw [hex] at h2
    cases r with
    | error e => simp at h2
    | ok u =>
      simp only [Prod.mk.injEq] at h2
      obtain ⟨hs, hm, hi, ho⟩ := h2
      refine ⟨op, rfl, ?_, ?_⟩
      · rw [hex, hm, hi, ho]
      · rw [← Except.ok.inj hs, hm]

/-- A faulting `step` leaves the machine, pending inputs and outputs
    untouched. -/
theorem step_error_frozen {m : Machine} {ins : List Int}
    {e : CPUExceptionKind} {m' : Machine} {ins' outs : List Int}
    (h : step m ins = (.error e, m', ins', outs)) :
    m' = m ∧ ins' = ins ∧ outs = [] := by
  cases hf : fetchOp m with
  | error e2 =>
    unfold step at h
    rw [hf] at h
    simp only [Prod.mk.injEq] at h
    exact ⟨h.2.1.symm, h.2.2.1.symm, h.2.2.2.symm⟩
  | ok op =>
    have h2 := (step_of_fetch ins hf).symm.trans h
    rcases hex : execute_op m op ins with ⟨r, m2, ins2, outs2⟩
    rw [hex] at h2
    cases r with
    | ok u => simp at h2
    | error e2 =>
      simp only [Prod.mk.injEq] at h2
      obtain ⟨-, hm, hi, ho⟩ := h2
      rw [← hm, ← hi, ← ho]
      exact execute_op_error_frozen hex

/-- `step` preserves the length of the cell array, faulting or not. -/
theorem step_program_length {m : Machine} {ins : List Int}
    {r : Except CPUExceptionKind CPUState} {m' : Machine} {ins' outs : List Int}
    (h : step m ins = (r, m', ins', outs)) :
    m'.program.length = m.program.length := by
  cases hf : fetchOp m with
  | error e2 =>
    unfold step at h
    rw [hf] at h
    simp only [Prod.mk.injEq] at h
    rw [← h.2.1]
  | ok op =>
    have h2 := (step_of_fetch ins hf).symm.trans h
    rcases hex : execute_op m op ins with ⟨r2, m2, ins2, outs2⟩
    rw [hex] at h2
    cases r2 <;> simp only [Prod.mk.injEq] at h2 <;> rw [← h2.2.1] <;>
      exact execute_op_program_length hex

/-- A machine whose PC is at or beyond the end of the cell array faults
    `OutOfBounds` at the very next step, unchanged. -/
theorem step_pc_oob {m : Machine} (ins : List Int)
    (h : m.program.length ≤ m.pc) :
    step m ins = (.error .OutOfBounds, m, ins, []) := by
  have hf : fetchOp m = .error .OutOfBounds := by
    unfold fetchOp
    rw [readCell_oob h]
  unfold step
  rw [hf]

/-- A machine already in the `Halted` state whose PC cell still decodes to
    `Halt` steps to itself, reporting `Halted`. -/
theorem step_halt_noop {m : Machine} (hf : fetchOp m = .ok .Halt)
    (hs : m.state = .Halted) (ins : List Int) :
    step m ins = (.ok .Halted, m, ins, []) := by
  have hm : (⟨m.program, .Halted, m.pc⟩ : Machine) = m := by
    rcases m with ⟨p, s, pc⟩
    have hs' : s = .Halted := hs
    rw [hs']
  rw [step_of_fetch ins hf, execute_op_halt, hm]
  simp [hs]

/-- Every reachable machine that is `Halted` has its PC parked on a cell
    that still decodes to `Halt` (the `Halt` execution neither moves the
    PC nor writes any cell). -/
theorem reachable_halted_fetch {m : Machine} (hr : Reachable m)
    (hs : m.state = .Halted) : fetchOp m = .ok .Halt := by
  induction hr with
  | init program => simp [Machine.new] at hs
  | next m0 ins s m' ins' outs hr0 hstep ih =>
    obtain ⟨op, hf, hex, hsst⟩ := step_ok_inv hstep
    cases hst0 : m0.state with
    | Halted =>
      have hfh := ih hst0
      have hnoop := step_halt_noop hfh hst0 ins
      rw [hnoop] at hstep
      simp only [Prod.mk.injEq] at hstep
      rw [← hstep.2.1]
      exact hfh
    | Running =>
      have hiff := execute_op_ok_state hex
      have hop : op = .Halt := by
        rcases hiff.mp hs with h | h
        · exact h
        · rw [hst0] at h; exact absurd h (by simp)
      subst hop
      rw [execute_op_halt] at hex
      simp only [Prod.mk.injEq] at hex
      obtain ⟨-, hm', -, -⟩ := hex
      rw [← hm']
      have hfi : fetchOp ⟨m0.program, .Halted, m0.pc⟩ = fetchOp m0 := by
        rcases m0 with ⟨p, s0, pc⟩
        rfl
      rw [hfi]
      exact hf

/-- `fetchInput` can only fault `OutOfBounds`, never `InvalidOperand`:
    opcode 03 consults no mode digit. -/
theorem fetchInput_ne_invalid (program : List Int) (pc : Nat) :
    fetchInput program pc ≠ .error .InvalidOperand := by
  unfold fetchInput
  cases hr : readCell program (pc + 3) with
  | error e =>
    obtain ⟨he, -⟩ := readCell_error_eq hr
    subst he
    simp
  | ok v =>
    simp

/-- Destination cell index of the write instructions (`dst` field of
    ADD, MUL, LT, EQ, INPUT). -/
def writeTarget : CPUOp → Option Nat
  | .Add _ _ d => some d
  | .Mul _ _ d => some d
  | .CompareLess _ _ d => some d
  | .CompareEqual _ _ d => some d
  | .Input d => some d
  | _ => none

theorem fetchBinOp_ok_inv {mk : Operand → Operand → Nat → CPUOp}
    {program : List Int} {pc m0 m1 : Nat} {op : CPUOp}
    (h : fetchBinOp mk program pc m0 m1 = .ok op) :
    ∃ o1 o2 raw, program.get? (pc + 3) = some raw ∧
      op = mk o1 o2 (usizeOfI32 raw) := by
  unfold fetchBinOp at h
  cases hr1 : readCell program (pc + 1) with
  | error e => simp [hr1] at h
  | ok s1 =>
    simp only [hr1] at h
    cases hr2 : readCell program (pc + 2) with
    | error e => simp [hr2] at h
    | ok s2 =>
      simp only [hr2] at h
      cases hr3 : readCell program (pc + 3) with
      | error e => simp [hr3] at h
      | ok dr =>
        simp only [hr3] at h
        cases ho1 : Operand.new m0 s1 with
        | error e => simp [ho1] at h
        | ok o1 =>
          simp only [ho1] at h
          cases ho2 : Operand.new m1 s2 with
          | error e => simp [ho2] at h
          | ok o2 =>
            simp only [ho2] at h
            exact ⟨o1, o2, dr, readCell_ok_iff.mp hr3, (Except.ok.inj h).symm⟩

theorem fetchInput_ok_inv {program : List Int} {pc : Nat} {op : CPUOp}
    (h : fetchInput program pc = .ok op) :
    ∃ raw, program.get? (pc + 3) = some raw ∧ op = .Input (usizeOfI32 raw) := by
  unfold fetchInput at h
  cases hr : readCell program (pc + 3) with
  | error e => simp [hr] at h
  | ok dr =>
    simp only [hr] at h
    exact ⟨dr, readCell_ok_iff.mp hr, (Except.ok.inj h).symm⟩

theorem fetchOutput_ok_inv {program : List Int} {pc m0 : Nat} {op : CPUOp}
    (h : fetchOutput program pc m0 = .ok op) : ∃ o, op = .Output o := by
  unfold fetchOutput at h
  cases hr : readCell program (pc + 1) with
  | error e => simp [hr] at h
  | ok s =>
    simp only [hr] at h
    cases ho : Operand.new m0 s with
    | error e => simp [ho] at h
    | ok o =>
      simp only [ho] at h
      exact ⟨o, (Except.ok.inj h).symm⟩

theorem fetchJump_ok_inv {mk : Operand → Operand → CPUOp}
    {program : List Int} {pc m0 m1 : Nat} {op : CPUOp}
    (h : fetchJump mk program pc m0 m1 = .ok op) :
    ∃ o1 o2, op = mk o1 o2 := by
  unfold fetchJump at h
  cases hr1 : readCell program (pc + 1) with
  | error e => simp [hr1] at h
  | ok s1 =>
    simp only [hr1] at h
    cases hr2 : readCell program (pc + 2) with
    | error e => simp [hr2] at h
    | ok s2 =>
      simp only [hr2] at h
      cases ho1 : Operand.new m0 s1 with
      | error e => simp [ho1] at h
      | ok o1 =>
        simp only [ho1] at h
        cases ho2 : Operand.new m1 s2 with
        | error e => simp [ho2] at h
        | ok o2 =>
          simp only [ho2] at h
          exact ⟨o1, o2, (Except.ok.inj h).symm⟩

/-- Whatever instruction `fetch_op` decodes, if it carries a write
    destination then that destination is the raw value of the cell at
    PC+3, reinterpreted as an index; no mode digit participates. -/
theorem fetch_writeTarget_raw {m : Machine} {op : CPUOp} {d : Nat}
    (hf : fetchOp m = .ok op) (hw : writeTarget op = some d) :
    ∃ raw, m.program.get? (m.pc + 3) = some raw ∧ d = usizeOfI32 raw := by
  unfold fetchOp at hf
  cases hr : readCell m.program m.pc with
  | error e => simp [hr] at hf
  | ok v =>
    simp only [hr] at hf
    unfold decodeWith at hf
    repeat' split at hf
    all_goals first
      | simp only [reduceCtorEq] at hf
      | (obtain ⟨o1, o2, raw, hg, rfl⟩ := fetchBinOp_ok_inv hf
         simp only [writeTarget, Option.some.injEq] at hw
         exact ⟨raw, hg, hw.symm⟩)
      | (obtain ⟨raw, hg, rfl⟩ := fetchInput_ok_inv hf
         simp only [writeTarget, Option.some.injEq] at hw
         exact ⟨raw, hg, hw.symm⟩)
      | (obtain ⟨o, rfl⟩ := fetchOutput_ok_inv hf
         simp [writeTarget] at hw)
      | (obtain ⟨o1, o2, rfl⟩ := fetchJump_ok_inv hf
         simp [writeTarget] at hw)
      | (rw [← Except.ok.inj hf] at hw
         simp [writeTarget] at hw)

/-- C1: the spec says the INPUT fetch reads its destination from the cell
    at PC+1, faulting OutOfBounds only when PC+1 is out of range.  The
    source instead reads the cell at PC+3 (its own error message still
    names PC+1).  Witnessed twice: on `[3, 0]` the claimed read at
    PC+1 = 1 is in bounds yet the step faults `OutOfBounds` (because
    PC+3 = 3 is not), and on `[3, 0, 99, 7]` the decoded destination is
    the value 7 found at PC+3, not the value 0 found at PC+1. -/
theorem c1_input_dst_read_from_pc3 :
    step (Machine.new [3, 0]) [5] =
      (.error .OutOfBounds, Machine.new [3, 0], [5], []) ∧
    fetchOp (Machine.new [3, 0, 99, 7]) = .ok (.Input 7) :=
  ⟨by decide, by decide⟩

/-- C2 counterexample: for the non-negative cell value 100001 the decode
    does not dispatch on `v mod 100` (which is 1, ADD): the six-digit
    rendering splits into mode characters "100" and opcode string "001",
    which names no instruction, so the fetch yields `Undefined 1` while
    the claimed rule (`specDecode`) yields an ADD instruction. -/
theorem c2_counterexample :
    fetchOp ⟨[100001, 0, 0, 0], .Running, 0⟩ ≠
      specDecode [100001, 0, 0, 0] 0 100001 := by decide

/-- C2 amended: for every non-negative cell value v below 100000 (the
    values whose zero-padded rendering has exactly five digits) the
    dispatched instruction is determined by v mod 100 and the parameter
    modes are the hundreds, thousands and ten-thousands decimal digits of
    v, exactly as `specDecode` words the spec's rule.  For v at or above
    100000 the rule fails (see the counterexample). -/
theorem c2_decode_five_digit (m : Machine) (v : Nat) (hv : v < 100000)
    (hcell : m.program.get? m.pc = some (Int.ofNat v)) :
    fetchOp m = specDecode m.program m.pc v := by
  unfold fetchOp
  rw [readCell_ok_iff.mpr hcell]
  show decodeWith m.program m.pc (Int.ofNat v) = specDecode m.program m.pc v
  exact decodeWith_eq_specDecode m.program m.pc hv

theorem c2_decode_five_digit_witness :
    fetchOp (Machine.new [1002, 4, 3, 4, 33]) =
      specDecode [1002, 4, 3, 4, 33] 0 1002 :=
  c2_decode_five_digit (Machine.new [1002, 4, 3, 4, 33]) 1002
    (by decide) (by decide)

/-- C3 counterexample: one successful step of `[1101, 1, 1, 0]` (an ADD
    with immediate sources writing to cell 0) yields a reachable machine
    that is still `Running` with PC = 4 = length, violating the claimed
    between-steps invariant `pc < length`. -/
theorem c3_counterexample :
    Reachable ⟨[2, 1, 1, 0], .Running, 4⟩ ∧
    (⟨[2, 1, 1, 0], .Running, 4⟩ : Machine).state = .Running ∧
    ¬((⟨[2, 1, 1, 0], .Running, 4⟩ : Machine).pc <
        (⟨[2, 1, 1, 0], .Running, 4⟩ : Machine).program.length) :=
  ⟨Reachable.next (Machine.new [1101, 1, 1, 0]) [] .Running
      ⟨[2, 1, 1, 0], .Running, 4⟩ [] [] (Reachable.init [1101, 1, 1, 0])
      (by decide),
    by decide, by decide⟩

/-- C3 amended: `0 ≤ pc` always holds (the PC is unsigned), but
    `pc < length` can fail between steps while the machine is still
    `Running`; what the code guarantees instead is that a machine whose
    PC is at or beyond the end of the array faults `OutOfBounds` at the
    next step, with the machine left unchanged. -/
theorem c3_pc_oob_next_step_faults (m : Machine) (ins : List Int)
    (h : m.program.length ≤ m.pc) :
    step m ins = (.error .OutOfBounds, m, ins, []) :=
  step_pc_oob ins h

theorem c3_pc_oob_next_step_faults_witness :
    step ⟨[2, 1, 1, 0], .Running, 4⟩ [] =
      (.error .OutOfBounds, ⟨[2, 1, 1, 0], .Running, 4⟩, [], []) :=
  c3_pc_oob_next_step_faults ⟨[2, 1, 1, 0], .Running, 4⟩ [] (by decide)

/-- C4: executing a JNZ or JZ whose operands resolve to `c` (predicate)
    and `t` (target): when the predicate holds the PC is assigned the
    signed-to-unsigned reinterpretation of `t` with no fall-through
    advance applied on top; when it does not hold the PC advances by
    exactly 3.  The cell array and the state are untouched either way. -/
theorem c4_jump_semantics (m : Machine) (ins : List Int)
    (cmp tgt : Operand) (c t : Int)
    (hc : getOperandValue m.program cmp = .ok c)
    (ht : getOperandValue m.program tgt = .ok t) :
    (c ≠ 0 → execute_op m (.JumpNonZero cmp tgt) ins =
      (.ok (), ⟨m.program, m.state, usizeOfI32 t⟩, ins, [])) ∧
    (c = 0 → execute_op m (.JumpNonZero cmp tgt) ins =
      (.ok (), ⟨m.program, m.state, m.pc + 3⟩, ins, [])) ∧
    (c = 0 → execute_op m (.JumpZero cmp tgt) ins =
      (.ok (), ⟨m.program, m.state, usizeOfI32 t⟩, ins, [])) ∧
    (c ≠ 0 → execute_op m (.JumpZero cmp tgt) ins =
      (.ok (), ⟨m.program, m.state, m.pc + 3⟩, ins, [])) := by
  refine ⟨fun h => ?_, fun h => ?_, fun h => ?_, fun h => ?_⟩ <;>
    simp [execute_op, hc, ht, h, CPUOp.next_pc_offset]

theorem c4_jump_semantics_witness :
    execute_op (Machine.new [1105, 1, 1000000])
      (.JumpNonZero (.Immediate 1) (.Immediate 1000000)) [] =
      (.ok (), ⟨[1105, 1, 1000000], .Running, 1000000⟩, [], []) :=
  (c4_jump_semantics (Machine.new [1105, 1, 1000000]) []
    (.Immediate 1) (.Immediate 1000000) 1 1000000
    (by decide) (by decide)).1 (by decide)

/-- C5: every faulting `step` leaves the machine frozen: the cell array,
    the state and the PC (i.e. the whole machine), as well as the pending
    host inputs, are exactly as before the call, and no output is
    emitted.  Every `Err` return in the source happens before any
    mutation. -/
theorem c5_fault_leaves_machine_frozen (m : Machine) (ins : List Int)
    (e : CPUExceptionKind) (m' : Machine) (ins' outs : List Int)
    (h : step m ins = (.error e, m', ins', outs)) :
    m' = m ∧ ins' = ins ∧ outs = [] :=
  step_error_frozen h

theorem c5_fault_leaves_machine_frozen_witness :
    Machine.new [-1] = Machine.new [-1] ∧ ([] : List Int) = [] ∧
      ([] : List Int) = [] :=
  c5_fault_leaves_machine_frozen (Machine.new [-1]) [] .InvalidOpcode
    (Machine.new [-1]) [] [] (by decide)

/-- C6: for every fetched instruction that carries a write destination
    (ADD, MUL, LT, EQ, INPUT), the cell index that will be written is the
    raw value of the cell the fetch read for the destination slot,
    reinterpreted signed-to-unsigned, with no mode digit consulted; and
    the spec's scenario 7 runs as claimed: `1002,4,3,4,33` (destination
    mode digit present for the MUL) halts with final cells
    `1002,4,3,4,99` and produces no output. -/
theorem c6_write_dst_raw :
    (∀ (m : Machine) (op : CPUOp) (d : Nat), fetchOp m = .ok op →
      writeTarget op = some d →
      ∃ raw, m.program.get? (m.pc + 3) = some raw ∧ d = usizeOfI32 raw) ∧
    runFuel 3 (Machine.new [1002, 4, 3, 4, 33]) [] =
      some (.ok (), ⟨[1002, 4, 3, 4, 99], .Halted, 4⟩, [], []) :=
  ⟨fun _ _ _ hf hw => fetch_writeTarget_raw hf hw, by decide⟩

theorem c6_write_dst_raw_witness :
    ∃ raw, ([1101, 1, 1, 0] : List Int).get? (0 + 3) = some raw ∧
      0 = usizeOfI32 raw :=
  c6_write_dst_raw.1 (Machine.new [1101, 1, 1, 0])
    (.Add (.Immediate 1) (.Immediate 1) 0) 0 (by decide) (by decide)

/-- C7: bounds safety.  A cell read faults exactly `OutOfBounds` exactly
    when the index is at or beyond the length; a cell write likewise, and
    a successful write preserves the length; and no `step` — successful
    or faulting — ever changes the length of the cell array, so no access
    can silently extend it. -/
theorem c7_bounds_safety :
    (∀ (program : List Int) (i : Nat),
      (program.length ≤ i → readCell program i = .error .OutOfBounds) ∧
      (∀ e, readCell program i = .error e →
        e = .OutOfBounds ∧ program.length ≤ i)) ∧
    (∀ (program : List Int) (i : Nat) (v : Int),
      (writeCell program i v = .error .OutOfBounds ↔ program.length ≤ i) ∧
      (∀ program', writeCell program i v = .ok program' →
        program'.length = program.length)) ∧
    (∀ (m : Machine) (ins : List Int) r (m' : Machine) (ins' outs : List Int),
      step m ins = (r, m', ins', outs) →
        m'.program.length = m.program.length) := by
  refine ⟨fun program i => ⟨readCell_oob, fun _ h => readCell_error_eq h⟩,
    fun program i v => ⟨?_, fun _ h => writeCell_ok_length h⟩,
    fun _ _ _ _ _ _ h => step_program_length h⟩
  rw [writeCell_error_iff]
  simp

theorem c7_bounds_safety_witness :
    (⟨[99], CPUState.Halted, 0⟩ : Machine).program.length =
      (Machine.new [99]).program.length :=
  c7_bounds_safety.2.2 (Machine.new [99]) [] (.ok .Halted)
    ⟨[99], .Halted, 0⟩ [] [] (by decide)

/-- C8: the state becomes `Halted` exactly when a `Halt` (opcode 99 cell)
    is fetched and executed; the transition is one-way (no step, faulting
    or not, ever leaves `Halted`); and a further `step` on a reachable
    machine that is already `Halted` is a no-op: it returns `Halted` and
    leaves the cell array, the PC and the state unchanged. -/
theorem c8_halt_semantics :
    (∀ (m : Machine) (ins : List Int) r (m' : Machine) (ins' outs : List Int),
      step m ins = (r, m', ins', outs) → m.state = .Halted →
        m'.state = .Halted) ∧
    (∀ (m : Machine) (ins : List Int) (s : CPUState) (m' : Machine)
      (ins' outs : List Int),
      step m ins = (.ok s, m', ins', outs) → m.state = .Running →
        (m'.state = .Halted ↔ fetchOp m = .ok .Halt)) ∧
    (∀ m : Machine, Reachable m → m.state = .Halted →
      ∀ ins : List Int, step m ins = (.ok .Halted, m, ins, [])) := by
  refine ⟨?_, ?_, ?_⟩
  · intro m ins r m' ins' outs h hs
    cases hf : fetchOp m with
    | error e =>
      have hse : step m ins = (.error e, m, ins, []) := by
        unfold step
        rw [hf]
      rw [hse] at h
      simp only [Prod.mk.injEq] at h
      rw [← h.2.1]
      exact hs
    | ok op =>
      have h2 := (step_of_fetch ins hf).symm.trans h
      rcases hex : execute_op m op ins with ⟨r2, m2, ins2, outs2⟩
      rw [hex] at h2
      have hst := execute_op_halted_sticky hex hs
      cases r2 <;> simp only [Prod.mk.injEq] at h2 <;> rw [← h2.2.1] <;>
        exact hst
  · intro m ins s m' ins' outs h hs
    obtain ⟨op, hf, hex, -⟩ := step_ok_inv h
    have hiff := execute_op_ok_state hex
    constructor
    · intro hh
      rcases hiff.mp hh with hop | hop
      · rw [hop] at hf
        exact hf
      · rw [hs] at hop
        exact absurd hop (by simp)
    · intro hfh
      rw [hf] at hfh
      exact hiff.mpr (Or.inl (Except.ok.inj hfh))
  · intro m hr hs ins
    exact step_halt_noop (reachable_halted_fetch hr hs) hs ins

theorem c8_halt_semantics_witness :
    step (⟨[99], CPUState.Halted, 0⟩ : Machine) [] =
      (.ok .Halted, ⟨[99], CPUState.Halted, 0⟩, [], []) :=
  c8_halt_semantics.2.2 ⟨[99], .Halted, 0⟩
    (Reachable.next (Machine.new [99]) [] .Halted ⟨[99], .Halted, 0⟩ [] []
      (Reachable.init [99]) (by decide)) rfl []

/-- C9: when the cell at PC holds a negative value, the fetch faults
    `InvalidOpcode` — not `OutOfBounds` or any other kind — before any
    dispatch or operand read, and the surrounding `step` surfaces exactly
    that fault with the machine untouched. -/
theorem c9_negative_opcode_invalid (m : Machine) (ins : List Int) (v : Int)
    (hcell : m.program.get? m.pc = some v) (hneg : v < 0) :
    fetchOp m = .error .InvalidOpcode ∧
    step m ins = (.error .InvalidOpcode, m, ins, []) := by
  have hf : fetchOp m = .error .InvalidOpcode := by
    unfold fetchOp
    rw [readCell_ok_iff.mpr hcell]
    show decodeWith m.program m.pc v = .error .InvalidOpcode
    unfold decodeWith
    rw [if_pos hneg]
  refine ⟨hf, ?_⟩
  unfold step
  rw [hf]

theorem c9_negative_opcode_invalid_witness :
    fetchOp (Machine.new [-1]) = .error .InvalidOpcode ∧
    step (Machine.new [-1]) [] =
      (.error .InvalidOpcode, Machine.new [-1], [], []) :=
  c9_negative_opcode_invalid (Machine.new [-1]) [] (-1) (by decide) (by decide)

/-- C10: mode digits in slots an instruction does not read as sources are
    never validated, for any instruction.  For five-digit values: (i) the
    decode depends only on `v mod 10000`, so the ten-thousands digit —
    operand 3's mode slot, which is the destination slot of ADD/MUL/LT/EQ
    and past the operand count of the jumps — is ignored whatever it is;
    (ii) an INPUT decode (opcode 03) ignores every mode digit; (iii) an
    OUTPUT decode (opcode 04) ignores every digit beyond its single
    source mode (the hundreds); (iv) an INPUT decode never faults
    `InvalidOperand`, whatever the mode digits; (v) a HALT decode
    (opcode 99, zero operands) yields `Halt` whatever the three mode
    digits — e.g. cell value 399 decodes to `Halt`, not
    `InvalidOperand`; (vi) an unknown opcode decodes to `Undefined`
    carrying exactly `v mod 100` whatever the three mode digits — so no
    unread slot of any instruction is ever passed through the operand
    decoder. -/
theorem c10_unread_mode_digits (program : List Int) (pc : Nat) :
    (∀ v w : Nat, v < 100000 → w < 100000 → v % 10000 = w % 10000 →
      decodeWith program pc (Int.ofNat v) =
        decodeWith program pc (Int.ofNat w)) ∧
    (∀ v w : Nat, v < 100000 → w < 100000 → v % 100 = 3 → w % 100 = 3 →
      decodeWith program pc (Int.ofNat v) =
        decodeWith program pc (Int.ofNat w)) ∧
    (∀ v w : Nat, v < 100000 → w < 100000 → v % 1000 = w % 1000 →
      v % 100 = 4 →
      decodeWith program pc (Int.ofNat v) =
        decodeWith program pc (Int.ofNat w)) ∧
    (∀ v : Nat, v < 100000 → v % 100 = 3 →
      decodeWith program pc (Int.ofNat v) ≠ .error .InvalidOperand) ∧
    (∀ v : Nat, v < 100000 → v % 100 = 99 →
      decodeWith program pc (Int.ofNat v) = .ok .Halt) ∧
    (∀ v : Nat, v < 100000 →
      ¬(v % 100 = 1 ∨ v % 100 = 2 ∨ v % 100 = 3 ∨ v % 100 = 4 ∨
        v % 100 = 5 ∨ v % 100 = 6 ∨ v % 100 = 7 ∨ v % 100 = 8 ∨
        v % 100 = 99) →
      decodeWith program pc (Int.ofNat v) =
        .ok (.Undefined (Int.ofNat (v % 100)))) := by
  refine ⟨?_, ?_, ?_, ?_, ?_, ?_⟩
  · intro v w hv hw hmod
    rw [decodeWith_lt program pc hv, decodeWith_lt program pc hw,
      (by omega : w / 10 % 10 = v / 10 % 10), (by omega : w % 10 = v % 10),
      (by omega : w / 100 % 10 = v / 100 % 10),
      (by omega : w / 1000 % 10 = v / 1000 % 10)]
  · intro v w hv hw hv3 hw3
    rw [decodeWith_lt program pc hv, decodeWith_lt program pc hw,
      (by omega : v / 10 % 10 = 0), (by omega : v % 10 = 3),
      (by omega : w / 10 % 10 = 0), (by omega : w % 10 = 3)]
    simp
  · intro v w hv hw hmod hv4
    rw [decodeWith_lt program pc hv, decodeWith_lt program pc hw,
      (by omega : v / 10 % 10 = 0), (by omega : v % 10 = 4),
      (by omega : w / 10 % 10 = 0), (by omega : w % 10 = 4),
      (by omega : w / 100 % 10 = v / 100 % 10)]
    simp
  · intro v hv hv3
    rw [decodeWith_lt program pc hv,
      (by omega : v / 10 % 10 = 0), (by omega : v % 10 = 3)]
    exact fetchInput_ne_invalid program pc
  · intro v hv h99
    rw [decodeWith_lt program pc hv,
      (by omega : v / 10 % 10 = 9), (by omega : v % 10 = 9)]
    simp
  · intro v hv hno
    push_neg at hno
    obtain ⟨h1, h2, h3, h4, h5, h6, h7, h8, h99⟩ := hno
    rw [decodeWith_lt program pc hv,
      if_neg (by simp only [List.cons.injEq]; omega),
      if_neg (by simp only [List.cons.injEq]; omega),
      if_neg (by simp only [List.cons.injEq]; omega),
      if_neg (by simp only [List.cons.injEq]; omega),
      if_neg (by simp only [List.cons.injEq]; omega),
      if_neg (by simp only [List.cons.injEq]; omega),
      if_neg (by simp only [List.cons.injEq]; omega),
      if_neg (by simp only [List.cons.injEq]; omega),
      if_neg (by simp only [List.cons.injEq]; omega),
      show natOfDigits [v / 10 % 10, v % 10] = v % 100 from by
        simp only [natOfDigits, List.foldl]
        omega]

theorem c10_unread_mode_digits_witness :
    decodeWith [0] 0 (Int.ofNat 91101) = decodeWith [0] 0 (Int.ofNat 1101) ∧
    decodeWith [0] 0 (Int.ofNat 399) = .ok .Halt ∧
    decodeWith [0] 0 (Int.ofNat 77777) =
      .ok (.Undefined (Int.ofNat (77777 % 100))) :=
  ⟨(c10_unread_mode_digits [0] 0).1 91101 1101 (by decide) (by decide)
      (by decide),
    (c10_unread_mode_digits [0] 0).2.2.2.2.1 399 (by decide) (by decide),
    (c10_unread_mode_digits [0] 0).2.2.2.2.2 77777 (by decide) (by decide)⟩

end Day05
